import Mathlib

/-!
Verification of the metrics computation in `src/pages/Live.py`
(PythonII_Final_Project), a dashboard over two CSV tables.

The embedding below translates the tabular logic of `Live.py`:

* `df_filtered` — the ticker/date-range filter (lines 44-48);
* `summarizePrices` — the min/max/mean closing-price summary guarded by the
  `df_filtered.empty` check (lines 53-59), packaged as the spec's
  `summarizePrices` operation with `EmptyInputError` for the empty case;
* `comparePredictions` — the prediction-metrics block (lines 127-172):
  partition into historical rows (`Close` present) and future rows
  (`Close` absent), `mean_absolute_error`, `accuracy_score` over the
  `diff() > 0` up-indicators, pandas Pearson correlation, and the
  next-day prediction taken from the first future row.

Prices are rationals, dates are integers (only their order matters).
pandas `Series.diff()` yields NaN at index 0; `(diff > 0)` maps that NaN
to `False` (NaN comparisons are falsy), so the boolean series has no NaN
and the subsequent `.dropna()` is a no-op — `upIndicators` reproduces
this literally by prepending `false`.  pandas `Series.corr` is the
Pearson coefficient and yields NaN (modelled as `none`) when either
series has zero sum of squared deviations.
-/

namespace Live

/-- A row of `merged_data.csv` as loaded in `Live.py` (the columns the
filtered view uses; field names follow the CSV header). -/
structure PriceRow where
  Date : Int
  Ticker : String
  Open : ℚ
  High : ℚ
  Low : ℚ
  Close : ℚ
  Volume : Nat
deriving DecidableEq, Repr

/-- A row of `ml_predictions_2.csv`: `Close` (the actual close) may be
absent, `Predicted_Close` is always present. -/
structure PredRow where
  Date : Int
  Ticker : String
  Close : Option ℚ
  Predicted_Close : ℚ
deriving DecidableEq, Repr

/-- The ticker/date-range filter of `Live.py` lines 44-48:
`(df["Ticker"] == selected_ticker) & (df["Date"] >= start) & (df["Date"] <= end)`. -/
def df_filtered (df : List PriceRow) (ticker : String) (startDate endDate : Int) :
    List PriceRow :=
  df.filter fun r => decide (r.Ticker = ticker ∧ startDate ≤ r.Date ∧ r.Date ≤ endDate)

/-- The single failure kind of the metrics engine (spec section 7). -/
inductive MetricsError where
  | EmptyInputError
deriving DecidableEq, Repr

/-- pandas `Series.mean()`: sum divided by length. -/
def seriesMean (xs : List ℚ) : ℚ := xs.sum / (xs.length : ℚ)

/-- Output of `summarizePrices`: the three closing-price metrics of
`Live.py` lines 57-59. -/
structure PriceSummary where
  min_close : ℚ
  max_close : ℚ
  mean_close : ℚ
deriving DecidableEq, Repr

/-- `summarizePrices` (spec section 4.1): on a non-empty row list, the
`Close` column's `.min()`, `.max()` and `.mean()` of `Live.py` lines
57-59; on the empty list the `df_filtered.empty` guard (line 53), i.e.
`EmptyInputError`. -/
def summarizePrices (rows : List PriceRow) : Except MetricsError PriceSummary :=
  match rows.map (fun r => r.Close) with
  | [] => .error .EmptyInputError
  | c :: cs =>
    .ok { min_close := cs.foldl min c
          max_close := cs.foldl max c
          mean_close := seriesMean (c :: cs) }

/-- `historical_data` (`Live.py` line 127): the rows whose actual close
is present (`Close.notna()`). -/
def historicalOf (rows : List PredRow) : List PredRow :=
  rows.filter fun r => r.Close.isSome

/-- `future_prediction` (`Live.py` line 128): the rows whose actual
close is absent (`Close.isna()`). -/
def futureOf (rows : List PredRow) : List PredRow :=
  rows.filter fun r => r.Close.isNone

/-- The `Close` column of a historical slice (every row there has
`Close` present, so the default never fires). -/
def actualSeries (h : List PredRow) : List ℚ :=
  h.map fun r => r.Close.getD 0

/-- The `Predicted_Close` column of a slice. -/
def predictedSeries (h : List PredRow) : List ℚ :=
  h.map fun r => r.Predicted_Close

/-- sklearn `mean_absolute_error`: mean of the absolute differences of
the paired values. -/
def mean_absolute_error (xs ys : List ℚ) : ℚ :=
  seriesMean ((xs.zip ys).map fun p => |p.1 - p.2|)

/-- The `mae` of `Live.py` lines 164-167, applied to the historical slice. -/
def mae (h : List PredRow) : ℚ :=
  mean_absolute_error (actualSeries h) (predictedSeries h)

/-- `(series.diff() > 0)` for a pandas series: `diff()` puts NaN at the
first position and consecutive differences after it, and `> 0` maps NaN
to `False`, so the result is `false` followed by the strict-positivity
of each consecutive difference.  The trailing `.dropna()` in the source
is a no-op on this NaN-free boolean series. -/
def upIndicators (xs : List ℚ) : List Bool :=
  match xs with
  | [] => []
  | _ :: _ => false :: ((xs.zip xs.tail).map fun p => decide (0 < p.2 - p.1))

/-- sklearn `accuracy_score`: the fraction of positions where the two
label lists agree. -/
def accuracy_score (ts ps : List Bool) : ℚ :=
  (((ts.zip ps).countP fun p => p.1 == p.2 : ℕ) : ℚ) / (((ts.zip ps).length : ℕ) : ℚ)

/-- The `direction_accuracy` of `Live.py` lines 168-171, applied to the
historical slice. -/
def direction_accuracy (h : List PredRow) : ℚ :=
  accuracy_score (upIndicators (actualSeries h)) (upIndicators (predictedSeries h))

/-- Sum of products of deviations from the mean,
`Σ (x_i - mean xs) * (y_i - mean ys)` over the paired entries: the
numerator of the Pearson coefficient (and, at `sxy xs xs`, the sum of
squared deviations of `xs`). -/
def sxy (xs ys : List ℚ) : ℚ :=
  ((xs.zip ys).map fun p => (p.1 - seriesMean xs) * (p.2 - seriesMean ys)).sum

/-- pandas `Series.corr` (`Live.py` line 172): the Pearson correlation
coefficient `sxy / (sqrt sxx * sqrt syy)`, NaN — modelled as `none` —
when either series has zero sum of squared deviations (zero variance). -/
noncomputable def corr (xs ys : List ℚ) : Option ℝ :=
  if sxy xs xs = 0 ∨ sxy ys ys = 0 then none
  else some ((sxy xs ys : ℝ) / (Real.sqrt (sxy xs xs) * Real.sqrt (sxy ys ys)))

/-- Output of `comparePredictions` (spec section 4.1). -/
structure PredictionReport where
  mean_absolute_error : ℚ
  direction_accuracy : ℚ
  correlation : Option ℝ
  next_prediction : Option (Int × ℚ)

/-- `comparePredictions` (spec section 4.1): partition the rows into
historical and future (`Live.py` lines 127-128); fail with
`EmptyInputError` when the historical slice is empty (the
`historical_data.empty` guard, lines 162 and 206); otherwise the three
metrics of lines 164-172 over the historical slice, and the next-day
prediction of lines 157-160 taken from the first future row (`iloc[0]`)
when one exists. -/
noncomputable def comparePredictions (rows : List PredRow) :
    Except MetricsError PredictionReport :=
  if historicalOf rows = [] then .error .EmptyInputError
  else
    .ok { mean_absolute_error := mae (historicalOf rows)
          direction_accuracy := direction_accuracy (historicalOf rows)
          correlation := corr (actualSeries (historicalOf rows))
                              (predictedSeries (historicalOf rows))
          next_prediction := (futureOf rows).head?.map fun r => (r.Date, r.Predicted_Close) }

/-! ## Example inputs

Concrete tables used by the witnesses and counterexamples; prices are
the ones named in the spec's examples (section 8). -/

/-- Historical rows with `actual = [100, 102, 101]`,
`predicted = [100, 101, 103]` (spec section 8 direction example). -/
def exDirection : List PredRow :=
  [⟨1, "T", some 100, 100⟩, ⟨2, "T", some 102, 101⟩, ⟨3, "T", some 101, 103⟩]

/-- Historical rows with `actual = [100, 102]`, `predicted = [100, 103]`
(spec section 8 mean-absolute-error example). -/
def exMae : List PredRow :=
  [⟨1, "T", some 100, 100⟩, ⟨2, "T", some 102, 103⟩]

/-- Three historical rows `(actual, predicted) = (1,1), (2,2), (2,3)`. -/
def exPermA : List PredRow :=
  [⟨1, "T", some 1, 1⟩, ⟨2, "T", some 2, 2⟩, ⟨3, "T", some 2, 3⟩]

/-- The rows of `exPermA` with the last two swapped. -/
def exPermB : List PredRow :=
  [⟨1, "T", some 1, 1⟩, ⟨3, "T", some 2, 3⟩, ⟨2, "T", some 2, 2⟩]

/-- Two historical rows followed by one future row (absent actual). -/
def exFuture : List PredRow :=
  [⟨1, "T", some 100, 101⟩, ⟨2, "T", some 102, 103⟩, ⟨3, "T", none, 120⟩]

/-- A single historical row. -/
def exSingle : List PredRow := [⟨1, "T", some 5, 7⟩]

/-- A single future row (absent actual) and no historical row. -/
def exOnlyFuture : List PredRow := [⟨9, "T", none, 120⟩]

/-- Price rows with closes `[10, 20, 30]` (spec section 8 example). -/
def exPrices : List PriceRow :=
  [⟨1, "A", 10, 10, 10, 10, 1⟩, ⟨2, "A", 20, 20, 20, 20, 1⟩, ⟨3, "A", 30, 30, 30, 30, 1⟩]

/-- Two price rows dated exactly on the endpoints of the range `[5, 10]`. -/
def exBoundary : List PriceRow :=
  [⟨5, "AAPL", 1, 1, 1, 1, 1⟩, ⟨7, "MSFT", 2, 2, 2, 2, 1⟩, ⟨10, "AAPL", 3, 3, 3, 3, 1⟩]

/-! ## Helper lemmas -/

theorem historicalOf_idem (rows : List PredRow) :
    historicalOf (historicalOf rows) = historicalOf rows := by
  simp [historicalOf, List.filter_filter]

theorem futureOf_historicalOf (rows : List PredRow) :
    futureOf (historicalOf rows) = [] := by
  rw [futureOf, historicalOf, List.filter_filter]
  rw [List.filter_eq_nil_iff]
  intro r _
  cases h : r.Close <;> simp [h]

/-! ## Claims -/

/-- Claim C1 (the code differs from the spec here): on the spec's
example rows with `actual = [100, 102, 101]`, `predicted = [100, 101, 103]`,
the code's direction accuracy is `2/3`, not the claimed `0.5`.  `diff()`
places NaN at the first position, `> 0` maps that NaN to `False` on both
sides, and the subsequent `.dropna()` is a no-op on the NaN-free boolean
series, so the first row is counted as one (trivially agreeing)
comparison instead of being excluded: n comparisons, not n−1. -/
theorem direction_accuracy_example_two_thirds :
    (comparePredictions exDirection).toOption.map (fun q => q.direction_accuracy)
        = some (2 / 3) ∧
    (comparePredictions exDirection).toOption.map (fun q => q.direction_accuracy)
        ≠ some (1 / 2) := by
  have h23 : direction_accuracy (historicalOf exDirection) = 2 / 3 := by
    simp [direction_accuracy, accuracy_score, upIndicators, actualSeries, predictedSeries,
          historicalOf, exDirection, List.countP_cons, List.countP_nil]
    norm_num
  constructor
  · rw [comparePredictions, if_neg (by decide)]
    simp [Except.toOption, h23]
  · rw [comparePredictions, if_neg (by decide)]
    simp [Except.toOption, h23]
    norm_num

/-- Claim C2: whenever the historical partition is non-empty,
`comparePredictions` reports as `mean_absolute_error` the mean of the
absolute differences `|actual_close - predicted_close|` over the
historical rows. -/
theorem mae_is_mean_absolute_deviation (rows : List PredRow)
    (h : historicalOf rows ≠ []) :
    (comparePredictions rows).toOption.map (fun q => q.mean_absolute_error) =
      some (((historicalOf rows).map fun r => |r.Close.getD 0 - r.Predicted_Close|).sum /
        (((historicalOf rows).length : ℕ) : ℚ)) := by
  rw [comparePredictions, if_neg h]
  simp [Except.toOption, mae, mean_absolute_error, seriesMean, actualSeries,
        predictedSeries, List.zip_map', List.map_map]
  rfl

/-- Witness for C2: on the spec's example (`actual = [100, 102]`,
`predicted = [100, 103]`) the mean absolute error is `0.5`. -/
theorem mae_is_mean_absolute_deviation_witness :
    (comparePredictions exMae).toOption.map (fun q => q.mean_absolute_error) =
      some (1 / 2) := by
  rw [mae_is_mean_absolute_deviation exMae (by decide)]
  norm_num [historicalOf, exMae, abs, max_def]

/-- Claim C4: `summarizePrices` fails with `EmptyInputError` exactly on
the empty input, `comparePredictions` fails with `EmptyInputError`
exactly when the historical partition is empty, and in particular a
single future row (actual close absent) makes `comparePredictions`
fail. -/
theorem emptyInputError_iff :
    (∀ rows : List PriceRow, summarizePrices rows = .error .EmptyInputError ↔ rows = []) ∧
    (∀ rows : List PredRow,
        comparePredictions rows = .error .EmptyInputError ↔ historicalOf rows = []) ∧
    comparePredictions exOnlyFuture = .error .EmptyInputError := by
  refine ⟨?_, ?_, ?_⟩
  · intro rows
    cases rows with
    | nil => simp [summarizePrices]
    | cons r t => simp [summarizePrices]
  · intro rows
    by_cases h : historicalOf rows = [] <;> simp [comparePredictions, h]
  · have h : historicalOf exOnlyFuture = [] := by decide
    simp [comparePredictions, h]

/-- Claim C9: the date-range filter feeding `summarizePrices` keeps a
row exactly when its ticker matches and `start ≤ date ≤ end`, both
endpoints inclusive; in particular a row dated exactly on the start or
on the end of a well-formed range is kept. -/
theorem df_filtered_mem :
    (∀ (df : List PriceRow) (t : String) (s e : Int) (r : PriceRow),
        r ∈ df_filtered df t s e ↔ r ∈ df ∧ r.Ticker = t ∧ s ≤ r.Date ∧ r.Date ≤ e) ∧
    (∀ (df : List PriceRow) (t : String) (s e : Int) (r : PriceRow),
        r ∈ df → r.Ticker = t → s ≤ e → (r.Date = s ∨ r.Date = e) →
          r ∈ df_filtered df t s e) := by
  constructor
  · intro df t s e r
    simp [df_filtered, List.mem_filter]
  · intro df t s e r hmem ht hse hd
    simp only [df_filtered, List.mem_filter, decide_eq_true_eq]
    rcases hd with h | h <;> exact ⟨hmem, ht, by omega, by omega⟩

/-- Witness for C9: the boundary rows of `exBoundary`, dated exactly on
the endpoints 5 and 10 of the selected range, pass the filter. -/
theorem df_filtered_mem_witness :
    (⟨5, "AAPL", 1, 1, 1, 1, 1⟩ : PriceRow) ∈ df_filtered exBoundary "AAPL" 5 10 ∧
    (⟨10, "AAPL", 3, 3, 3, 3, 1⟩ : PriceRow) ∈ df_filtered exBoundary "AAPL" 5 10 :=
  ⟨df_filtered_mem.2 exBoundary "AAPL" 5 10 ⟨5, "AAPL", 1, 1, 1, 1, 1⟩
      (by decide) (by decide) (by decide) (by decide),
   df_filtered_mem.2 exBoundary "AAPL" 5 10 ⟨10, "AAPL", 3, 3, 3, 3, 1⟩
      (by decide) (by decide) (by decide) (by decide)⟩

/-- Claim C10: when the historical partition is a single row, the
reported direction accuracy is 1: the lone NaN diff compares as "not
up" on both the actual and the predicted side, giving one agreeing
comparison rather than an excluded one. -/
theorem direction_accuracy_single_row (rows : List PredRow) (r : PredRow)
    (h : historicalOf rows = [r]) :
    (comparePredictions rows).toOption.map (fun q => q.direction_accuracy) = some 1 := by
  rw [comparePredictions, if_neg (by simp [h])]
  simp [Except.toOption, h, direction_accuracy, actualSeries, predictedSeries,
        upIndicators, accuracy_score]

/-- Witness for C10: a concrete single-row historical table gets
direction accuracy 1. -/
theorem direction_accuracy_single_row_witness :
    (comparePredictions exSingle).toOption.map (fun q => q.direction_accuracy) = some 1 :=
  direction_accuracy_single_row exSingle ⟨1, "T", some 5, 7⟩ (by decide)

/-! ## Folded minimum and maximum of a closing-price column -/

theorem foldl_min_le_init (cs : List ℚ) (c : ℚ) : cs.foldl min c ≤ c := by
  induction cs generalizing c with
  | nil => exact le_refl c
  | cons d ds ih => exact le_trans (ih (min c d)) (min_le_left c d)

theorem foldl_min_le (cs : List ℚ) (c x : ℚ) (hx : x ∈ c :: cs) : cs.foldl min c ≤ x := by
  induction cs generalizing c with
  | nil =>
    rcases List.mem_cons.mp hx with rfl | hx'
    · exact le_refl x
    · exact absurd hx' (List.not_mem_nil x)
  | cons d ds ih =>
    simp only [List.foldl_cons]
    rcases List.mem_cons.mp hx with rfl | hx'
    · exact le_trans (foldl_min_le_init ds (min x d)) (min_le_left x d)
    · rcases List.mem_cons.mp hx' with rfl | hx''
      · exact le_trans (foldl_min_le_init ds (min c x)) (min_le_right c x)
      · exact ih (min c d) (List.mem_cons_of_mem _ hx'')

theorem foldl_min_mem (cs : List ℚ) (c : ℚ) : cs.foldl min c ∈ c :: cs := by
  induction cs generalizing c with
  | nil => exact List.mem_singleton.mpr rfl
  | cons d ds ih =>
    simp only [List.foldl_cons]
    rcases List.mem_cons.mp (ih (min c d)) with h | h
    · rcases min_choice c d with hm | hm
      · rw [h, hm]; exact List.mem_cons_self c (d :: ds)
      · rw [h, hm]; exact List.mem_cons_of_mem _ (List.mem_cons_self d ds)
    · exact List.mem_cons_of_mem _ (List.mem_cons_of_mem _ h)

theorem card_mul_foldl_min_le_sum (cs : List ℚ) (c : ℚ) :
    ((cs.length : ℚ) + 1) * cs.foldl min c ≤ c + cs.sum := by
  induction cs generalizing c with
  | nil => simp
  | cons d ds ih =>
    simp only [List.foldl_cons, List.sum_cons, List.length_cons]
    have h1 := ih (min c d)
    have h2 : ds.foldl min (min c d) ≤ min c d := foldl_min_le_init ds (min c d)
    have h3 : min c d ≤ c := min_le_left c d
    have h4 : min c d ≤ d := min_le_right c d
    have e : ((ds.length : ℚ) + 1 + 1) * ds.foldl min (min c d) =
        ((ds.length : ℚ) + 1) * ds.foldl min (min c d) + ds.foldl min (min c d) := by ring
    push_cast
    rw [e]
    linarith

theorem le_foldl_max_init (cs : List ℚ) (c : ℚ) : c ≤ cs.foldl max c := by
  induction cs generalizing c with
  | nil => exact le_refl c
  | cons d ds ih => exact le_trans (le_max_left c d) (ih (max c d))

theorem le_foldl_max (cs : List ℚ) (c x : ℚ) (hx : x ∈ c :: cs) : x ≤ cs.foldl max c := by
  induction cs generalizing c with
  | nil =>
    rcases List.mem_cons.mp hx with rfl | hx'
    · exact le_refl x
    · exact absurd hx' (List.not_mem_nil x)
  | cons d ds ih =>
    simp only [List.foldl_cons]
    rcases List.mem_cons.mp hx with rfl | hx'
    · exact le_trans (le_max_left x d) (le_foldl_max_init ds (max x d))
    · rcases List.mem_cons.mp hx' with rfl | hx''
      · exact le_trans (le_max_right c x) (le_foldl_max_init ds (max c x))
      · exact ih (max c d) (List.mem_cons_of_mem _ hx'')

theorem foldl_max_mem (cs : List ℚ) (c : ℚ) : cs.foldl max c ∈ c :: cs := by
  induction cs generalizing c with
  | nil => exact List.mem_singleton.mpr rfl
  | cons d ds ih =>
    simp only [List.foldl_cons]
    rcases List.mem_cons.mp (ih (max c d)) with h | h
    · rcases max_choice c d with hm | hm
      · rw [h, hm]; exact List.mem_cons_self c (d :: ds)
      · rw [h, hm]; exact List.mem_cons_of_mem _ (List.mem_cons_self d ds)
    · exact List.mem_cons_of_mem _ (List.mem_cons_of_mem _ h)

theorem sum_le_card_mul_foldl_max (cs : List ℚ) (c : ℚ) :
    c + cs.sum ≤ ((cs.length : ℚ) + 1) * cs.foldl max c := by
  induction cs generalizing c with
  | nil => simp
  | cons d ds ih =>
    simp only [List.foldl_cons, List.sum_cons, List.length_cons]
    have h1 := ih (max c d)
    have h2 : max c d ≤ ds.foldl max (max c d) := le_foldl_max_init ds (max c d)
    have h3 : c ≤ max c d := le_max_left c d
    have h4 : d ≤ max c d := le_max_right c d
    have e : ((ds.length : ℚ) + 1 + 1) * ds.foldl max (max c d) =
        ((ds.length : ℚ) + 1) * ds.foldl max (max c d) + ds.foldl max (max c d) := by ring
    push_cast
    rw [e]
    linarith

theorem summarizePrices_eq (rows : List PriceRow) (c : ℚ) (cs : List ℚ)
    (hm : rows.map (fun r => r.Close) = c :: cs) :
    summarizePrices rows = .ok ⟨cs.foldl min c, cs.foldl max c, seriesMean (c :: cs)⟩ := by
  unfold summarizePrices
  rw [hm]

/-- Claim C6: on every non-empty input, `summarizePrices` returns the
minimum, maximum and mean of the `Close` column: the reported
`min_close` (resp. `max_close`) is a close of the input and bounds every
close from below (resp. above), and `mean_close` is the sum of the
closes divided by the row count. -/
theorem summarizePrices_spec (rows : List PriceRow) (h : rows ≠ []) :
    ∃ s, summarizePrices rows = .ok s ∧
      s.min_close ∈ rows.map (fun r => r.Close) ∧
      s.max_close ∈ rows.map (fun r => r.Close) ∧
      (∀ x ∈ rows.map (fun r => r.Close), s.min_close ≤ x ∧ x ≤ s.max_close) ∧
      s.mean_close = (rows.map (fun r => r.Close)).sum / ((rows.length : ℕ) : ℚ) := by
  cases hm : rows.map (fun r => r.Close) with
  | nil =>
    cases rows with
    | nil => exact absurd rfl h
    | cons a t => simp at hm
  | cons c cs =>
    refine ⟨_, summarizePrices_eq rows c cs hm, ?_, ?_, ?_, ?_⟩
    · exact foldl_min_mem cs c
    · exact foldl_max_mem cs c
    · intro x hx
      exact ⟨foldl_min_le cs c x hx, le_foldl_max cs c x hx⟩
    · have hlen : rows.length = (c :: cs).length := by
        rw [← List.length_map rows (fun r => r.Close), hm]
      rw [hlen]
      rfl

/-- Witness for C6: on closes `[10, 20, 30]` the summary is
`{min 10, max 30, mean 20}` (spec section 8 example). -/
theorem summarizePrices_spec_witness :
    summarizePrices exPrices = .ok ⟨10, 30, 20⟩ ∧
    (∃ s, summarizePrices exPrices = .ok s ∧
      s.min_close ∈ exPrices.map (fun r => r.Close) ∧
      s.max_close ∈ exPrices.map (fun r => r.Close) ∧
      (∀ x ∈ exPrices.map (fun r => r.Close), s.min_close ≤ x ∧ x ≤ s.max_close) ∧
      s.mean_close = (exPrices.map (fun r => r.Close)).sum / ((exPrices.length : ℕ) : ℚ)) :=
  ⟨by norm_num [summarizePrices, exPrices, seriesMean, min_def, max_def],
   summarizePrices_spec exPrices (by decide)⟩

/-- Claim C7: every summary returned by `summarizePrices` satisfies
`min_close ≤ mean_close ≤ max_close`. -/
theorem summary_min_le_mean_le_max (rows : List PriceRow) (s : PriceSummary)
    (h : summarizePrices rows = .ok s) :
    s.min_close ≤ s.mean_close ∧ s.mean_close ≤ s.max_close := by
  cases hm : rows.map (fun r => r.Close) with
  | nil =>
    unfold summarizePrices at h
    rw [hm] at h
    exact absurd h (by simp)
  | cons c cs =>
    rw [summarizePrices_eq rows c cs hm] at h
    injection h with h'
    subst h'
    have hn : (0 : ℚ) < (((c :: cs).length : ℕ) : ℚ) := by
      simp only [List.length_cons]
      push_cast
      positivity
    constructor
    · show cs.foldl min c ≤ seriesMean (c :: cs)
      rw [seriesMean, le_div_iff₀ hn]
      have := card_mul_foldl_min_le_sum cs c
      simp only [List.sum_cons, List.length_cons]
      push_cast
      linarith
    · show seriesMean (c :: cs) ≤ cs.foldl max c
      rw [seriesMean, div_le_iff₀ hn]
      have := sum_le_card_mul_foldl_max cs c
      simp only [List.sum_cons, List.length_cons]
      push_cast
      linarith

/-- Witness for C7: the example summary `{min 10, max 30, mean 20}`
satisfies the inequalities. -/
theorem summary_min_le_mean_le_max_witness :
    summarizePrices exPrices = .ok ⟨10, 30, 20⟩ ∧
    (⟨10, 30, 20⟩ : PriceSummary).min_close ≤ (⟨10, 30, 20⟩ : PriceSummary).mean_close ∧
    (⟨10, 30, 20⟩ : PriceSummary).mean_close ≤ (⟨10, 30, 20⟩ : PriceSummary).max_close := by
  have hEq : summarizePrices exPrices = .ok ⟨10, 30, 20⟩ := by
    norm_num [summarizePrices, exPrices, seriesMean, min_def, max_def]
  exact ⟨hEq, summary_min_le_mean_le_max exPrices ⟨10, 30, 20⟩ hEq⟩


/-! ## Pearson correlation lemmas -/

theorem zip_self_eq_map (xs : List ℚ) : xs.zip xs = xs.map fun x => (x, x) := by
  induction xs with
  | nil => rfl
  | cons a t ih => simp [List.zip_cons_cons, ih]

theorem sxy_self_eq (xs : List ℚ) :
    sxy xs xs = (xs.map fun x => (x - seriesMean xs) * (x - seriesMean xs)).sum := by
  rw [sxy, zip_self_eq_map, List.map_map]
  rfl

theorem sxy_self_nonneg (xs : List ℚ) : 0 ≤ sxy xs xs := by
  rw [sxy_self_eq]
  apply List.sum_nonneg
  intro z hz
  rw [List.mem_map] at hz
  obtain ⟨y, _, rfl⟩ := hz
  exact mul_self_nonneg _

theorem sxy_self_pos (a b : ℚ) (t : List ℚ) (hab : a ≠ b) :
    0 < sxy (a :: b :: t) (a :: b :: t) := by
  rw [sxy_self_eq]
  simp only [List.map_cons, List.sum_cons]
  set m := seriesMean (a :: b :: t) with hm
  have hS : 0 ≤ (t.map fun x => (x - m) * (x - m)).sum := by
    apply List.sum_nonneg
    intro z hz
    rw [List.mem_map] at hz
    obtain ⟨y, _, rfl⟩ := hz
    exact mul_self_nonneg _
  rcases eq_or_ne a m with ha | ha
  · have hb : b - m ≠ 0 := sub_ne_zero.mpr fun hbm => hab (by rw [ha, hbm])
    have hpos := mul_self_pos.mpr hb
    linarith [mul_self_nonneg (a - m)]
  · have hpos := mul_self_pos.mpr (sub_ne_zero.mpr ha)
    linarith [mul_self_nonneg (b - m)]

theorem corr_self_eq_one (xs : List ℚ) (h : sxy xs xs ≠ 0) : corr xs xs = some 1 := by
  rw [corr, if_neg (by simpa using h)]
  congr 1
  have h0 : (0 : ℝ) ≤ ((sxy xs xs : ℚ) : ℝ) := by
    exact_mod_cast sxy_self_nonneg xs
  rw [Real.mul_self_sqrt h0]
  exact div_self (by exact_mod_cast h)

/-- Claim C3: the `correlation` field of `comparePredictions` is the
Pearson coefficient `sxy / (sqrt sxx * sqrt syy)` of the actual and
predicted closing-price series of the historical partition; it is
absent (`none`, the embedding of pandas' NaN) exactly when either
series has zero sum of squared deviations (zero variance), and two
identical strictly increasing sequences correlate to `1`. -/
theorem correlation_spec :
    (∀ rows : List PredRow, historicalOf rows ≠ [] →
        (comparePredictions rows).toOption.map (fun q => q.correlation) =
          some (corr (actualSeries (historicalOf rows))
                     (predictedSeries (historicalOf rows)))) ∧
    (∀ xs ys : List ℚ, sxy xs xs ≠ 0 → sxy ys ys ≠ 0 →
        corr xs ys = some ((sxy xs ys : ℝ) /
          (Real.sqrt (sxy xs xs) * Real.sqrt (sxy ys ys)))) ∧
    (∀ xs ys : List ℚ, sxy xs xs = 0 ∨ sxy ys ys = 0 → corr xs ys = none) ∧
    (∀ xs : List ℚ, 2 ≤ xs.length → xs.Chain' (fun x y => x < y) →
        corr xs xs = some 1) := by
  refine ⟨?_, ?_, ?_, ?_⟩
  · intro rows h
    rw [comparePredictions, if_neg h]
    simp [Except.toOption]
  · intro xs ys h1 h2
    rw [corr, if_neg (by tauto)]
  · intro xs ys h
    rw [corr, if_pos h]
  · intro xs hlen hchain
    match xs, hlen, hchain with
    | a :: b :: t, _, hchain =>
      have hab : a < b := (List.chain'_cons.mp hchain).1
      exact corr_self_eq_one _ (ne_of_gt (sxy_self_pos a b t (ne_of_lt hab)))

/-- Witness for C3: the report's correlation field on a concrete table;
`corr` on a constant series is absent; `corr` of `[1,2,3]` with itself
is `1`; the Pearson quotient shape at a concrete non-degenerate pair. -/
theorem correlation_spec_witness :
    (comparePredictions exSingle).toOption.map (fun q => q.correlation) =
      some (corr (actualSeries (historicalOf exSingle))
                 (predictedSeries (historicalOf exSingle))) ∧
    corr [1, 2] [1, 3] = some ((sxy [1, 2] [1, 3] : ℝ) /
      (Real.sqrt (sxy [1, 2] [1, 2]) * Real.sqrt (sxy [1, 3] [1, 3]))) ∧
    corr [1, 1] [1, 2] = none ∧
    corr [1, 2, 3] [1, 2, 3] = some 1 :=
  ⟨correlation_spec.1 exSingle (by decide),
   correlation_spec.2.1 [1, 2] [1, 3] (by norm_num [sxy, seriesMean])
     (by norm_num [sxy, seriesMean]),
   correlation_spec.2.2.1 [1, 1] [1, 2] (Or.inl (by norm_num [sxy, seriesMean])),
   correlation_spec.2.2.2 [1, 2, 3] (by norm_num) (by norm_num [List.chain'_cons])⟩


/-! ## Permutation invariance -/

theorem seriesMean_perm {xs ys : List ℚ} (h : xs.Perm ys) : seriesMean xs = seriesMean ys := by
  rw [seriesMean, seriesMean, h.sum_eq, h.length_eq]

theorem sxy_map_perm (f g : PredRow → ℚ) {h h' : List PredRow} (hp : h.Perm h') :
    sxy (h.map f) (h.map g) = sxy (h'.map f) (h'.map g) := by
  have hmf : seriesMean (h.map f) = seriesMean (h'.map f) := seriesMean_perm (hp.map f)
  have hmg : seriesMean (h.map g) = seriesMean (h'.map g) := seriesMean_perm (hp.map g)
  rw [sxy, sxy, List.zip_map', List.zip_map', List.map_map, List.map_map, hmf, hmg]
  exact (hp.map _).sum_eq

theorem mae_perm {h h' : List PredRow} (hp : h.Perm h') : mae h = mae h' := by
  rw [mae, mae, mean_absolute_error, mean_absolute_error, actualSeries, predictedSeries,
      actualSeries, predictedSeries, List.zip_map', List.zip_map', List.map_map, List.map_map]
  exact seriesMean_perm (hp.map _)

theorem corr_columns_perm {h h' : List PredRow} (hp : h.Perm h') :
    corr (actualSeries h) (predictedSeries h) = corr (actualSeries h') (predictedSeries h') := by
  rw [actualSeries, predictedSeries, actualSeries, predictedSeries, corr, corr,
      sxy_map_perm (fun r => r.Close.getD 0) (fun r => r.Close.getD 0) hp,
      sxy_map_perm (fun r => r.Predicted_Close) (fun r => r.Predicted_Close) hp,
      sxy_map_perm (fun r => r.Close.getD 0) (fun r => r.Predicted_Close) hp]

/-- Counterexample to claim C5 as stated: `exPermB` is a permutation of
`exPermA` (same three historical rows, last two swapped), yet the
reported direction accuracies differ — 2/3 versus 1 — so the results of
`comparePredictions` are not invariant to input row order: the
`diff()`-based direction accuracy depends on the order of the
historical rows, which the code never sorts. -/
theorem comparePredictions_not_perm_invariant :
    exPermA.Perm exPermB ∧
    (comparePredictions exPermA).toOption.map (fun q => q.direction_accuracy)
        = some (2 / 3) ∧
    (comparePredictions exPermB).toOption.map (fun q => q.direction_accuracy)
        = some 1 := by
  refine ⟨List.Perm.cons _ (List.Perm.swap _ _ _), ?_, ?_⟩
  · rw [comparePredictions, if_neg (by decide)]
    simp [Except.toOption, direction_accuracy, accuracy_score, upIndicators,
          actualSeries, predictedSeries, historicalOf, exPermA,
          List.countP_cons, List.countP_nil]
    norm_num
  · rw [comparePredictions, if_neg (by decide)]
    simp [Except.toOption, direction_accuracy, accuracy_score, upIndicators,
          actualSeries, predictedSeries, historicalOf, exPermB,
          List.countP_cons, List.countP_nil]
    norm_num

/-- Claim C5 (amended): under any permutation of the input rows the
mean absolute error and the correlation are unchanged (they depend only
on the multiset of historical rows), and — provided the future
partition holds at most one row, the documented data invariant — so is
the next-day prediction; the direction accuracy is NOT order-invariant
(see the counterexample), since it reads consecutive differences in
input order. -/
theorem comparePredictions_perm (rows rows' : List PredRow) (hp : rows.Perm rows') :
    ((comparePredictions rows).toOption.map (fun q => q.mean_absolute_error) =
      (comparePredictions rows').toOption.map (fun q => q.mean_absolute_error)) ∧
    ((comparePredictions rows).toOption.map (fun q => q.correlation) =
      (comparePredictions rows').toOption.map (fun q => q.correlation)) ∧
    ((futureOf rows).length ≤ 1 →
      (comparePredictions rows).toOption.map (fun q => q.next_prediction) =
        (comparePredictions rows').toOption.map (fun q => q.next_prediction)) := by
  have hh : (historicalOf rows).Perm (historicalOf rows') := hp.filter _
  have hf : (futureOf rows).Perm (futureOf rows') := hp.filter _
  by_cases hE : historicalOf rows = []
  · have hE' : historicalOf rows' = [] := by
      rw [hE] at hh
      exact List.perm_nil.mp hh.symm
    rw [comparePredictions, comparePredictions, if_pos hE, if_pos hE']
    exact ⟨rfl, rfl, fun _ => rfl⟩
  · have hE' : historicalOf rows' ≠ [] := by
      intro h0
      rw [h0] at hh
      exact hE (List.perm_nil.mp hh)
    rw [comparePredictions, comparePredictions, if_neg hE, if_neg hE']
    refine ⟨?_, ?_, ?_⟩
    · simp [Except.toOption, mae_perm hh]
    · simp [Except.toOption, corr_columns_perm hh]
    · intro hlen
      have heq : futureOf rows = futureOf rows' := by
        cases hfr : futureOf rows with
        | nil =>
          rw [hfr] at hf
          exact (List.perm_nil.mp hf.symm).symm
        | cons r rest =>
          cases rest with
          | nil =>
            rw [hfr] at hf
            exact List.singleton_perm.mp hf
          | cons r2 rest2 =>
            rw [hfr] at hlen
            simp at hlen
      simp [Except.toOption, heq]

/-- Witness for the amended C5: the mean absolute error, the
correlation and the next prediction agree on the concrete permuted
pair `exPermA`, `exPermB`. -/
theorem comparePredictions_perm_witness :
    ((comparePredictions exPermA).toOption.map (fun q => q.mean_absolute_error) =
      (comparePredictions exPermB).toOption.map (fun q => q.mean_absolute_error)) ∧
    ((comparePredictions exPermA).toOption.map (fun q => q.correlation) =
      (comparePredictions exPermB).toOption.map (fun q => q.correlation)) ∧
    (comparePredictions exPermA).toOption.map (fun q => q.next_prediction) =
      (comparePredictions exPermB).toOption.map (fun q => q.next_prediction) := by
  have h := comparePredictions_perm exPermA exPermB
    (List.Perm.cons _ (List.Perm.swap _ _ _))
  exact ⟨h.1, h.2.1, h.2.2 (by decide)⟩

/-! ## The future row -/

/-- Claim C8: when the future partition is a single row, the report
carries that row's date and predicted price as `next_prediction`,
while the three metrics coincide with those computed on the historical
partition alone (whose own report carries no next prediction). -/
theorem next_prediction_from_future_row (rows : List PredRow) (r0 : PredRow)
    (hf : futureOf rows = [r0]) (hh : historicalOf rows ≠ []) :
    ∃ rep rep', comparePredictions rows = .ok rep ∧
      comparePredictions (historicalOf rows) = .ok rep' ∧
      rep.next_prediction = some (r0.Date, r0.Predicted_Close) ∧
      rep.mean_absolute_error = rep'.mean_absolute_error ∧
      rep.direction_accuracy = rep'.direction_accuracy ∧
      rep.correlation = rep'.correlation ∧
      rep'.next_prediction = none := by
  have e1 : comparePredictions rows = .ok
      { mean_absolute_error := mae (historicalOf rows)
        direction_accuracy := direction_accuracy (historicalOf rows)
        correlation := corr (actualSeries (historicalOf rows))
                            (predictedSeries (historicalOf rows))
        next_prediction := (futureOf rows).head?.map fun r => (r.Date, r.Predicted_Close) } := by
    rw [comparePredictions, if_neg hh]
  have e2 : comparePredictions (historicalOf rows) = .ok
      { mean_absolute_error := mae (historicalOf rows)
        direction_accuracy := direction_accuracy (historicalOf rows)
        correlation := corr (actualSeries (historicalOf rows))
                            (predictedSeries (historicalOf rows))
        next_prediction := none } := by
    rw [comparePredictions, historicalOf_idem, if_neg hh, futureOf_historicalOf]
    rfl
  exact ⟨_, _, e1, e2, by simp [hf], rfl, rfl, rfl, rfl⟩

/-- Witness for C8: on `exFuture` (two historical rows and the future
row with date 3 and predicted close 120) the next prediction is
`(3, 120)` and the metrics equal those of the historical slice. -/
theorem next_prediction_from_future_row_witness :
    ∃ rep rep', comparePredictions exFuture = .ok rep ∧
      comparePredictions (historicalOf exFuture) = .ok rep' ∧
      rep.next_prediction = some ((⟨3, "T", none, 120⟩ : PredRow).Date,
        (⟨3, "T", none, 120⟩ : PredRow).Predicted_Close) ∧
      rep.mean_absolute_error = rep'.mean_absolute_error ∧
      rep.direction_accuracy = rep'.direction_accuracy ∧
      rep.correlation = rep'.correlation ∧
      rep'.next_prediction = none :=
  next_prediction_from_future_row exFuture ⟨3, "T", none, 120⟩ (by decide) (by decide)

end Live
